import Mathlib

/-!
Verification of the compose stage of the origami OCR pipeline
(origami/batch/detect/compose.py), shallowly embedded in Lean.

Conventions of the embedding:
* page coordinates are rationals;
* Python dicts are modelled as Lean functions, total on the keys the
  code actually uses;
* Python sets of integers are modelled as deduplicated lists, and the
  idiom sorted(list(s)) as a kernel-computable insertion sort;
* shapely operations that live outside this repository (polygon union,
  polygon distance, the dewarping grid inverse) are parameters of the
  definitions that call them, so every theorem holds for an arbitrary
  interpretation of those externals;
* shapely intersection of a polygon with the axis-aligned page box
  (Document.rewarp) is modelled concretely by Sutherland-Hodgman
  clipping against the four half planes of the box, which computes the
  same intersection for the convex clip box.
-/

/-- A point in page coordinates. -/
abbrev Pt : Type := ℚ × ℚ

/-- Intersection point of the segment from s to e with the vertical
line x = c; the first coordinate is exactly c and the second is the
convex interpolation of the endpoint ordinates. -/
def interpAtX (s e : Pt) (c : ℚ) : Pt :=
  (c, s.2 + (e.2 - s.2) * ((c - s.1) / (e.1 - s.1)))

/-- Intersection point of the segment from s to e with the horizontal
line y = c. -/
def interpAtY (s e : Pt) (c : ℚ) : Pt :=
  (s.1 + (e.1 - s.1) * ((c - s.2) / (e.2 - s.2)), c)

/-- One Sutherland-Hodgman output step for the directed edge from s to e. -/
def clipSegment (inside : Pt → Bool) (inter : Pt → Pt → Pt) (s e : Pt) : List Pt :=
  if inside e then
    if inside s then [e] else [inter s e, e]
  else
    if inside s then [inter s e] else []

/-- The directed edges of a polygon ring, the last vertex wrapping
around to the first. -/
def polyEdges (poly : List Pt) : List (Pt × Pt) :=
  match poly with
  | [] => []
  | p :: _ => poly.zip (poly.drop 1 ++ [p])

/-- Clip a polygon ring against one half plane. -/
def clipHalf (inside : Pt → Bool) (inter : Pt → Pt → Pt) (poly : List Pt) : List Pt :=
  (polyEdges poly).flatMap (fun se => clipSegment inside inter se.1 se.2)

/-- Model of the shapely intersection of a polygon with
box(0, 0, w, h), as performed by Document.rewarp. -/
def clipBox (w h : ℚ) (poly : List Pt) : List Pt :=
  clipHalf (fun p => decide (0 ≤ p.1)) (fun s e => interpAtX s e 0)
    (clipHalf (fun p => decide (p.1 ≤ w)) (fun s e => interpAtX s e w)
      (clipHalf (fun p => decide (0 ≤ p.2)) (fun s e => interpAtY s e 0)
        (clipHalf (fun p => decide (p.2 ≤ h)) (fun s e => interpAtY s e h) poly)))

/-- Document.rewarp: first apply the inverse dewarping grid to every
vertex, then intersect the resulting polygon with the page box
[0, w] x [0, h], returning the exterior ring of the intersection. -/
def rewarp (gridInverse : Pt → Pt) (w h : ℚ) (coords : List Pt) : List Pt :=
  clipBox w h (coords.map gridInverse)

/-- Model of a shapely polygon: an emptiness flag and its exterior ring. -/
structure Polygon where
  isEmpty : Bool
  exterior : List Pt
  deriving DecidableEq

/-- Model of Python sep.join(parts), defined by structural recursion so
that it evaluates inside the kernel. -/
def pyJoin (sep : String) : List String → String
  | [] => ""
  | [s] => s
  | s :: rest => s ++ sep ++ pyJoin sep rest

/-- Insert an integer into an already sorted list, keeping it sorted. -/
def insertSorted (x : ℤ) : List ℤ → List ℤ
  | [] => [x]
  | y :: ys => if x ≤ y then x :: y :: ys else y :: insertSorted x ys

/-- Model of the Python idiom sorted(list(s)) for a set s of integers:
the sets of TableRegion are modelled as lists, deduplicated to mirror
set semantics and sorted ascending by insertion sort. -/
def sortedSet (l : List ℤ) : List ℤ := l.dedup.foldr insertSorted []

/-- Model of one detected line: its polygon in dewarped image space and
its confidence score. The recognized text travels separately through
the OCR table, as in the code. -/
structure Line where
  imageSpacePolygon : Polygon
  confidence : ℚ
  deriving DecidableEq

/-- State of TextRegion: the single block polygon, the line table, the
recognized texts and the explicit emission order. The Python dicts
self.lines and self.lineTexts are modelled as functions, total on the
line paths held in the order list. -/
structure TextRegionData where
  blockPath : List String
  polygon : Polygon
  lines : List String → Line
  lineTexts : List String → String
  order : List (List String)

/-- State of TableRegion: observed divisions, per-division rows,
columns, per-cell text lists keyed by (division, row, column), and the
detected sub-block polygons keyed by (column, division, row). Python
sets become finite sets, dicts become functions (blocks returns none
for a missing key, like dict.get). -/
structure TableRegionData where
  blockPath : List String
  lines : List String → Line
  divisions : List ℤ
  rows : ℤ → List ℤ
  columns : List ℤ
  texts : ℤ × ℤ × ℤ → List (List String × String)
  blocks : ℤ × ℤ × ℤ → Option Polygon

/-- State of GraphicRegion: exactly one spatial block, no lines. -/
structure GraphicRegionData where
  blockPath : List String
  block : Polygon

/-- The region kinds a Document can hold under a block path. -/
inductive Region where
  | text (tr : TextRegionData)
  | table (tb : TableRegionData)
  | graphic (gr : GraphicRegionData)

/-- The page-level context the reading-order reconstructor and the
exporters read from a Document: the created regions, the per-block line
lists (self.region_lines, grouped by 3-segment block path), the
configured minimum confidence, the raw line table, the sorted region
keys (document.paths) and the external shapely polygon distance. -/
structure DocM where
  regions : List String → Option Region
  regionLines : List String → List Line
  minConfidence : ℚ
  lines : List String → Line
  paths : List (List String)
  dist : Polygon → Polygon → ℚ

/-- Possible outcomes of Document.get: an existing region, a silent
None, or the RuntimeError raised when confidences are not all below
threshold yet no region exists (the error carries the block path and
the observed confidences, as the formatted Python message does). -/
inductive GetOut where
  | reg (r : Region)
  | nothing
  | confError (blockPath : List String) (confidences : List ℚ)

/-- Document.get: return the region created for the path if any;
otherwise inspect the confidences of the lines filed under the path and
either return None (all strictly below the minimum confidence) or raise. -/
def docGet (d : DocM) (blockPath : List String) : GetOut :=
  match d.regions blockPath with
  | some r => GetOut.reg r
  | none =>
    if ((d.regionLines blockPath).map Line.confidence).all
        (fun c => decide (c < d.minConfidence)) then GetOut.nothing
    else GetOut.confError blockPath ((d.regionLines blockPath).map Line.confidence)

/-- The dot character, the grid separator inside table block ids. -/
def chDot : Char := Char.ofNat 46

/-- Helper for pySplit: split a character list at every occurrence of
the separator character, keeping empty groups, as Python str.split does
for an explicit separator. -/
def splitChars (sep : Char) : List Char → List (List Char)
  | [] => [[]]
  | c :: cs =>
    if c = sep then [] :: splitChars sep cs
    else
      match splitChars sep cs with
      | [] => [[c]]
      | g :: gs => (c :: g) :: gs

/-- Model of Python str.split with a one-character separator, defined
over the character list so that it evaluates inside the kernel. -/
def pySplit (sep : Char) (s : String) : List String :=
  (splitChars sep s.data).map String.mk

/-- The two routes a line of sorted OCR input can take during Document
construction: into a table region cell, or into a text region. -/
inductive IngestRoute where
  | tableCell (basePath : List String) (grid : List String)
      (linePath : List String) (text : String)
  | textLine (blockPath : List String) (linePath : List String) (text : String)
  deriving DecidableEq

/-- One iteration of the ingestion loop of Document.init: derive the
block path, split its id segment on dots, and route the line, asserting
the namespace and class of the block path. A failed assert is an error. -/
def routeOcrLine (lp : List String) (text : String) : Except String IngestRoute :=
  if 1 < (pySplit chDot ((lp.take 3).getD 2 "")).length then
    if (lp.take 3).take 2 = ["regions", "TABULAR"] then
      Except.ok (IngestRoute.tableCell
        ((lp.take 3).take 2 ++ [(pySplit chDot ((lp.take 3).getD 2 "")).headD ""])
        ((pySplit chDot ((lp.take 3).getD 2 "")).drop 1) lp text)
    else Except.error "assertion failed: dotted block id outside regions TABULAR"
  else
    if (lp.take 3).take 2 = ["regions", "TEXT"] then
      Except.ok (IngestRoute.textLine (lp.take 3) lp text)
    else Except.error "assertion failed: plain block id outside regions TEXT"

/-- The ingestion loop of Document.init over the sorted OCR lines: the
first failed assertion aborts construction. -/
def routeAllOcr : List (List String × String) → Except String (List IngestRoute)
  | [] => Except.ok []
  | (lp, tx) :: rest =>
    match routeOcrLine lp tx with
    | Except.error e => Except.error e
    | Except.ok r =>
      match routeAllOcr rest with
      | Except.error e => Except.error e
      | Except.ok rs => Except.ok (r :: rs)

/-- The namespace and class condition Document.init asserts for one
ingested OCR line (spec side, read off the two assert statements). -/
def ocrLineAdmissible (lp : List String) : Bool :=
  if 1 < (pySplit chDot ((lp.take 3).getD 2 "")).length then
    decide ((lp.take 3).take 2 = ["regions", "TABULAR"])
  else
    decide ((lp.take 3).take 2 = ["regions", "TEXT"])

/-- Model of Python str.strip(): drop leading and trailing whitespace
characters. Defined over the character list so that it evaluates inside
the kernel. -/
def pyStrip (s : String) : String :=
  String.mk (((s.data.dropWhile Char.isWhitespace).reverse.dropWhile
    Char.isWhitespace).reverse)

/-- State of the plain-text composer: the configured separators, the
emitted chunks and the path of the last emitted fragment. -/
structure PlainTextComposition where
  lineSeparator : String
  blockSeparator : String
  texts : List String
  path : Option (List String)

/-- PlainTextComposition.append_text: strip the fragment; drop it (and
leave all state untouched) when the stripped text is empty; otherwise
emit the block separator exactly when a previous fragment exists and
its 3-segment block path differs, then emit the stripped text plus a
newline and remember the path. -/
def append_text (c : PlainTextComposition) (path : List String)
    (text : String) : PlainTextComposition :=
  let t := pyStrip text
  if t = "" then c
  else
    { c with
      texts := c.texts ++
        (match c.path with
         | some q => if path.take 3 ≠ q.take 3 then [c.blockSeparator] else []
         | none => []) ++ [t ++ "\n"],
      path := some path }

/-- Fold append_text over a sequence of (path, fragment) pairs. -/
def appendAll (c : PlainTextComposition)
    (frags : List (List String × String)) : PlainTextComposition :=
  frags.foldl (fun acc f => append_text acc f.1 f.2) c

/-- The fragments that survive stripping (spec side). -/
def keptFrags (frags : List (List String × String)) :
    List (List String × String) :=
  frags.filter (fun f => decide (pyStrip f.2 ≠ ""))

/-- Spec-side rendering of the fragments after the first kept one: each
fragment is preceded by exactly one separator element when its
3-segment block path differs from the previous kept fragment, and is
itself emitted as stripped text plus newline, so a separator is never
the last element. -/
def renderTail (sep : String) (q : List String) :
    List (List String × String) → List String
  | [] => []
  | f :: fs =>
      (if f.1.take 3 ≠ q.take 3 then [sep] else []) ++
        ((pyStrip f.2 ++ "\n") :: renderTail sep f.1 fs)

/-- Spec-side rendering of a whole kept sequence: the first kept
fragment is emitted with no separator before it. -/
def renderAll (sep : String) : List (List String × String) → List String
  | [] => []
  | f :: fs => (pyStrip f.2 ++ "\n") :: renderTail sep f.1 fs

/-- Number of block transitions after a fragment with path q. -/
def transitionsFrom (q : List String) : List (List String × String) → Nat
  | [] => 0
  | f :: fs => (if f.1.take 3 ≠ q.take 3 then 1 else 0) + transitionsFrom f.1 fs

/-- Number of transitions between consecutive kept fragments whose
3-segment block paths differ. -/
def transitionCount : List (List String × String) → Nat
  | [] => 0
  | f :: fs => transitionsFrom f.1 fs

/-- One emitted Page XML text line element: its id (the hyphen-joined
line path), its transformed outline and its text. -/
structure PxLine where
  lineId : String
  coords : List Pt
  text : String
  deriving DecidableEq

/-- The RuntimeError of TextRegion.export_page_xml for a line with text
but empty geometry; it carries the data the formatted message names:
the full line path (whose first three segments name the block), the
recognized text and the confidence. -/
structure EmptyGeomErr where
  linePath : List String
  text : String
  confidence : ℚ
  deriving DecidableEq

/-- The held-line loop of TextRegion.export_page_xml: a line with empty
geometry raises when its text is non-empty and is skipped silently
otherwise; a line with geometry is emitted with its transformed
outline and text. -/
def exportTextLines (tr : TextRegionData) (transform : List Pt → List Pt) :
    List (List String) → Except EmptyGeomErr (List PxLine)
  | [] => Except.ok []
  | p :: ps =>
    if (tr.lines p).imageSpacePolygon.isEmpty then
      if tr.lineTexts p ≠ "" then
        Except.error ⟨p, tr.lineTexts p, (tr.lines p).confidence⟩
      else exportTextLines tr transform ps
    else
      match exportTextLines tr transform ps with
      | Except.error e => Except.error e
      | Except.ok rest =>
        Except.ok (⟨pyJoin "-" p,
          transform (tr.lines p).imageSpacePolygon.exterior,
          tr.lineTexts p⟩ :: rest)

/-- One emitted Page XML text region element. -/
structure PxTextRegion where
  regionId : String
  coords : List Pt
  pxLines : List PxLine
  deriving DecidableEq

/-- TextRegion.export_page_xml: emit the region with its transformed
outline and walk the held lines in emission order. -/
def TextRegionData.export_page_xml (tr : TextRegionData)
    (transform : List Pt → List Pt) : Except EmptyGeomErr PxTextRegion :=
  match exportTextLines tr transform tr.order with
  | Except.error e => Except.error e
  | Except.ok ls =>
    Except.ok ⟨pyJoin "-" tr.blockPath, transform tr.polygon.exterior, ls⟩

/-- Does a held line trigger the text-but-no-geometry error? -/
def offends (tr : TextRegionData) (p : List String) : Bool :=
  (tr.lines p).imageSpacePolygon.isEmpty && decide (tr.lineTexts p ≠ "")

/-- The first held line with text but empty geometry, if any. -/
def firstOffender (tr : TextRegionData) : Option (List String) :=
  tr.order.find? (offends tr)

/-- The line elements a successful TextRegion export emits: the held
lines with non-empty geometry, in emission order. -/
def emittedTextLines (tr : TextRegionData)
    (transform : List Pt → List Pt) : List PxLine :=
  (tr.order.filter (fun p => !(tr.lines p).imageSpacePolygon.isEmpty)).map
    (fun p => ⟨pyJoin "-" p,
      transform (tr.lines p).imageSpacePolygon.exterior, tr.lineTexts p⟩)

/-- One emitted Page XML table cell, with its text line children. -/
structure PxCell where
  cellId : String
  coords : List Pt
  cellLines : List PxLine
  deriving DecidableEq

/-- One emitted table division (a group of rows inside a column). -/
structure PxDivision where
  divisionId : String
  coords : List Pt
  cells : List PxCell
  deriving DecidableEq

/-- One emitted table column. -/
structure PxColumn where
  columnId : String
  coords : List Pt
  divisions : List PxDivision
  deriving DecidableEq

/-- The emitted table region element. -/
structure PxTable where
  tableId : String
  coords : List Pt
  columns : List PxColumn
  deriving DecidableEq

/-- The row body of TableRegion.export_page_xml: skip the cell when no
sub-block was detected for (column, division, row) or its polygon is
empty; otherwise emit the cell with its transformed outline and its
text lines, and record its shape for the division outline. -/
def exportTableCell (t : TableRegionData) (transform : List Pt → List Pt)
    (divisionId : String) (column division row : ℤ) :
    Option (PxCell × Polygon) :=
  match t.blocks (column, division, row) with
  | none => none
  | some b =>
    if b.isEmpty then none
    else
      some (⟨divisionId ++ "." ++ toString row,
        transform b.exterior,
        (t.texts (division, row, column)).map (fun pr =>
          ⟨pyJoin "-" pr.1,
            transform (t.lines pr.1).imageSpacePolygon.exterior, pr.2⟩)⟩, b)

/-- The division body of TableRegion.export_page_xml: walk the rows of
the division in ascending order; when no cell survived, the created
division element is removed again; otherwise its outline is the union
of its cell shapes, prepended before the cells. -/
def exportTableDivision (pu : List Polygon → Polygon) (t : TableRegionData)
    (transform : List Pt → List Pt) (columnId : String)
    (column division : ℤ) : Option (PxDivision × Polygon) :=
  match (sortedSet (t.rows division)).filterMap
      (exportTableCell t transform (columnId ++ "." ++ toString division)
        column division) with
  | [] => none
  | cs =>
    some (⟨columnId ++ "." ++ toString division,
      transform (pu (cs.map Prod.snd)).exterior, cs.map Prod.fst⟩,
      pu (cs.map Prod.snd))

/-- The column body of TableRegion.export_page_xml: walk all observed
divisions in ascending order; an empty column is removed again;
otherwise its outline is the union of its division shapes. -/
def exportTableColumn (pu : List Polygon → Polygon) (t : TableRegionData)
    (transform : List Pt → List Pt) (tableId : String) (column : ℤ) :
    Option (PxColumn × Polygon) :=
  match (sortedSet t.divisions).filterMap
      (exportTableDivision pu t transform (tableId ++ "." ++ toString column)
        column) with
  | [] => none
  | ds =>
    some (⟨tableId ++ "." ++ toString column,
      transform (pu (ds.map Prod.snd)).exterior, ds.map Prod.fst⟩,
      pu (ds.map Prod.snd))

/-- TableRegion.export_page_xml: walk the columns in ascending order;
a table with no surviving column is removed from the document again and
a warning is logged (returned here as the message list); otherwise the
table outline is the union of the column shapes. -/
def TableRegionData.export_page_xml (pu : List Polygon → Polygon)
    (t : TableRegionData) (transform : List Pt → List Pt) :
    Option PxTable × List String :=
  match (sortedSet t.columns).filterMap
      (exportTableColumn pu t transform (pyJoin "-" t.blockPath)) with
  | [] => (none, ["table " ++ pyJoin "-" t.blockPath ++ " was empty"])
  | cs =>
    (some ⟨pyJoin "-" t.blockPath,
      transform (pu (cs.map Prod.snd)).exterior, cs.map Prod.fst⟩, [])

/-- The text of one table cell in plain-text export: the stripped cell
texts joined by newlines. -/
def cellText (t : TableRegionData) (division row column : ℤ) : String :=
  pyJoin "\n" ((t.texts (division, row, column)).map (fun pr => pyStrip pr.2))

/-- One row of table_data in TableRegion.to_text. -/
def tableRowData (t : TableRegionData) (division row : ℤ) : List String :=
  (sortedSet t.columns).map (fun column => cellText t division row column)

/-- The table_data matrix of TableRegion.to_text: all rows of all
divisions, in ascending division and row order. -/
def tableDataOf (t : TableRegionData) : List (List String) :=
  (sortedSet t.divisions).flatMap (fun division =>
    (sortedSet (t.rows division)).map (fun row => tableRowData t division row))

/-- The n_rows list of TableRegion.to_text: the row count per division,
in ascending division order. -/
def nRowsOf (t : TableRegionData) : List ℕ :=
  (sortedSet t.divisions).map (fun division =>
    (sortedSet (t.rows division)).length)

/-- TableRegion.to_text: a single-column table degrades to the
newline-joined cell texts; otherwise the external tabulate call is
modelled by the parameter tab, applied to table_data and to the header
mode (true for headers equal to firstrow, false for no headers), which
the code selects exactly when n_rows has at least two entries and its
first entry is 1. -/
def TableRegionData.to_text (t : TableRegionData)
    (tab : List (List String) → Bool → String) : String :=
  if (sortedSet t.columns).length = 1 then
    pyJoin "\n" ((tableDataOf t).map (fun row => String.join row))
  else
    tab (tableDataOf t)
      (decide (2 ≤ (nRowsOf t).length ∧ (nRowsOf t).headD 0 = 1))

/-- A merged synthetic region created for a run of regionless lines:
the shared 2-segment base path, the freshly allocated block index (the
code stores the path base_path + (str(index),); the decimal rendering
of the index is injective, so collisions are decided at the integer
level), the member lines in accumulation order, and the union of the
member polygons. -/
structure MergedTextRegionData where
  basePath : List String
  index : ℤ
  mlines : List (List String × Line)
  polygon : Polygon

/-- One entry of the ordered region list of RegionReadingOrder: a
region resolved from the document under its block path, or a merged
synthetic region. -/
inductive RoEntry where
  | fromDoc (path : List String) (r : Region)
  | merged (m : MergedTextRegionData)

/-- The state of RegionReadingOrder: the ordered regions so far, the
accumulating run of regionless line paths, and the per-prefix region
index table (a defaultdict with default 0, keyed by the 2-segment
namespace/class prefix). -/
structure ROState where
  orderedRegions : List RoEntry
  regionlessTextLines : List (List String)
  regionIndices : List String → ℤ

/-- One step of the index-table loop in RegionReadingOrder.init:
record the maximum of the stored value and the integer id segment of
one document path. The Python int() parse is the parameter pyInt. -/
def bumpIndex (pyInt : String → ℤ) (m : List String → ℤ)
    (p : List String) : List String → ℤ :=
  fun k => if k = p.take 2 then max (m (p.take 2)) (pyInt (p.getD 2 ""))
    else m k

/-- The region index table built in RegionReadingOrder.init from all
existing document paths, starting from the defaultdict default 0. -/
def initRegionIndices (pyInt : String → ℤ) (paths : List (List String)) :
    List String → ℤ :=
  paths.foldl (bumpIndex pyInt) (fun _ => 0)

/-- RegionReadingOrder.flush_regionless_lines: a no-op on an empty run;
otherwise assert that every accumulated line path shares the 2-segment
prefix of the first, allocate the next region index for that prefix
(one more than the stored value), record it, and append exactly one
merged region holding the accumulated lines in accumulation order. -/
def flushRegionlessLines (pu : List Polygon → Polygon) (d : DocM)
    (st : ROState) : Except String ROState :=
  match st.regionlessTextLines with
  | [] => Except.ok st
  | p0 :: _ =>
    if st.regionlessTextLines.all (fun p => decide (p.take 2 = p0.take 2)) then
      Except.ok
        { orderedRegions := st.orderedRegions ++
            [RoEntry.merged
              { basePath := p0.take 2
                index := st.regionIndices (p0.take 2) + 1
                mlines := st.regionlessTextLines.map (fun p => (p, d.lines p))
                polygon := pu (st.regionlessTextLines.map
                  (fun p => (d.lines p).imageSpacePolygon)) }]
          regionlessTextLines := []
          regionIndices := fun k =>
            if k = p0.take 2 then st.regionIndices (p0.take 2) + 1
            else st.regionIndices k }
    else Except.error "assertion failed: regionless lines cross prefixes"

/-- RegionReadingOrder.is_adjacent: false when no run is accumulating,
false when the candidate does not share the last accumulated line's
3-segment block path; otherwise the code computes a distance test
against the threshold 5 whose both branches return true (the FIXME in
the source), so the result is true regardless of the distance. -/
def isAdjacent (d : DocM) (st : ROState) (lp : List String) : Bool :=
  match st.regionlessTextLines.getLast? with
  | none => false
  | some q =>
    if q.take 3 ≠ lp.take 3 then false
    else
      if d.dist (d.lines q).imageSpacePolygon
          (d.lines lp).imageSpacePolygon < 5 then true
      else true

/-- RegionReadingOrder.add_regionless_line: flush the current run
first unless the new line is adjacent, then append the new line to the
run. -/
def addRegionlessLine (pu : List Polygon → Polygon) (d : DocM)
    (st : ROState) (lp : List String) : Except String ROState :=
  if isAdjacent d st lp then
    Except.ok { st with regionlessTextLines :=
      st.regionlessTextLines ++ [lp] }
  else
    match flushRegionlessLines pu d st with
    | Except.error e => Except.error e
    | Except.ok st2 =>
      Except.ok { st2 with regionlessTextLines :=
        st2.regionlessTextLines ++ [lp] }

/-- The block branch of RegionReadingOrder.append: flush any
accumulated run, then resolve the block through Document.get; a
created region is appended, a silent None is skipped, and the
mixed-confidence RuntimeError propagates. -/
def roBlockStep (pu : List Polygon → Polygon) (d : DocM) (st : ROState)
    (path : List String) : Except String ROState :=
  match flushRegionlessLines pu d st with
  | Except.error e => Except.error e
  | Except.ok st2 =>
    match docGet d path with
    | GetOut.reg r =>
      Except.ok { st2 with orderedRegions :=
        st2.orderedRegions ++ [RoEntry.fromDoc path r] }
    | GetOut.nothing => Except.ok st2
    | GetOut.confError _ _ =>
      Except.error "RuntimeError: no text found for block"

/-- RegionReadingOrder.append: a path of length 3 is a block
reference; a path of length greater than 3 falls into the line branch,
which asserts the regions TEXT prefix and accumulates the line; any
shorter path raises ValueError. -/
def roAppend (pu : List Polygon → Polygon) (d : DocM) (st : ROState)
    (path : List String) : Except String ROState :=
  if path.length = 3 then
    roBlockStep pu d st path
  else if 3 < path.length then
    if path.take 2 = ["regions", "TEXT"] then
      addRegionlessLine pu d st path
    else Except.error "assertion failed: line path outside regions TEXT"
  else Except.error "ValueError: illegal region or line path"

/-- Does the region filter of the plain-text exporter skip this path
(filter configured and rejecting the path)? -/
def filterSkips (bf : Option (List String → Bool))
    (path : List String) : Bool :=
  match bf with
  | some f => !(f path)
  | none => false

/-- TextRegion.export_plain_text_region: append every held line text
in emission order. -/
def TextRegionData.export_plain_text_region (tr : TextRegionData)
    (c : PlainTextComposition) : PlainTextComposition :=
  tr.order.foldl (fun acc p => append_text acc p (tr.lineTexts p)) c

/-- Dispatch of region.export_plain_text_region: Text and Table
regions implement it, a Graphic region does not (Python would raise
AttributeError). -/
def regionExportPlainTextRegion
    (tab : List (List String) → Bool → String) (r : Region)
    (c : PlainTextComposition) : Except String PlainTextComposition :=
  match r with
  | Region.text tr => Except.ok (tr.export_plain_text_region c)
  | Region.table tb =>
    Except.ok (append_text c tb.blockPath (TableRegionData.to_text tb tab))
  | Region.graphic _ =>
    Except.error "AttributeError: no export_plain_text_region"

/-- Dispatch of region.export_plain_text_line: only Text regions
implement it. -/
def regionExportPlainTextLine (r : Region) (lp : List String)
    (c : PlainTextComposition) : Except String PlainTextComposition :=
  match r with
  | Region.text tr => Except.ok (append_text c lp (tr.lineTexts lp))
  | Region.table _ =>
    Except.error "AttributeError: no export_plain_text_line"
  | Region.graphic _ =>
    Except.error "AttributeError: no export_plain_text_line"

/-- The loop body of ComposeProcessor.export_plain_text: skip filtered
paths, dispatch a length-3 path as a block and a length-4 path as a
line (resolving through Document.get, where a silent None skips and
the RuntimeError propagates), and raise on any other length. -/
def exportPlainTextStep (tab : List (List String) → Bool → String)
    (bf : Option (List String → Bool)) (d : DocM)
    (c : PlainTextComposition) (path : List String) :
    Except String PlainTextComposition :=
  if filterSkips bf path then Except.ok c
  else if path.length = 3 then
    match docGet d path with
    | GetOut.reg r => regionExportPlainTextRegion tab r c
    | GetOut.nothing => Except.ok c
    | GetOut.confError _ _ =>
      Except.error "RuntimeError: no text found for block"
  else if path.length = 4 then
    match docGet d (path.take 3) with
    | GetOut.reg r => regionExportPlainTextLine r path c
    | GetOut.nothing => Except.ok c
    | GetOut.confError _ _ =>
      Except.error "RuntimeError: no text found for block"
  else Except.error "RuntimeError: illegal path in reading order"

/-- The full loop of ComposeProcessor.export_plain_text over the
reading order. -/
def exportPlainTextPaths (tab : List (List String) → Bool → String)
    (bf : Option (List String → Bool)) (d : DocM) :
    List (List String) → PlainTextComposition →
      Except String PlainTextComposition
  | [], c => Except.ok c
  | p :: ps, c =>
    match exportPlainTextStep tab bf d c p with
    | Except.error e => Except.error e
    | Except.ok c2 => exportPlainTextPaths tab bf d ps c2

lemma mem_polyEdges {poly : List Pt} {se : Pt × Pt} (h : se ∈ polyEdges poly) :
    se.1 ∈ poly ∧ se.2 ∈ poly := by
  unfold polyEdges at h
  match poly, h with
  | p :: rest, h =>
    obtain ⟨h1, h2⟩ := List.of_mem_zip (a := se.1) (b := se.2) h
    refine ⟨h1, ?_⟩
    rcases List.mem_append.mp h2 with h3 | h3
    · exact List.mem_of_mem_drop h3
    · simp only [List.mem_singleton] at h3
      subst h3
      exact List.mem_cons_self _ _

lemma mem_clipHalf {inside : Pt → Bool} {inter : Pt → Pt → Pt}
    {poly : List Pt} {q : Pt} (h : q ∈ clipHalf inside inter poly) :
    (q ∈ poly ∧ inside q = true) ∨
      ∃ s, s ∈ poly ∧ ∃ e, e ∈ poly ∧ inside s ≠ inside e ∧ q = inter s e := by
  unfold clipHalf at h
  obtain ⟨se, hse, hq⟩ := List.mem_flatMap.mp h
  obtain ⟨hs, he⟩ := mem_polyEdges hse
  unfold clipSegment at hq
  by_cases he1 : inside se.2 = true <;> by_cases hs1 : inside se.1 = true <;>
    simp only [he1, hs1, if_true, if_false, Bool.false_eq_true] at hq
  · simp only [List.mem_singleton] at hq
    subst hq; exact Or.inl ⟨he, he1⟩
  · rcases List.mem_cons.mp hq with h1 | h1
    · refine Or.inr ⟨se.1, hs, se.2, he, ?_, h1⟩
      simp [he1, hs1]
    · simp only [List.mem_singleton] at h1
      subst h1; exact Or.inl ⟨he, he1⟩
  · simp only [if_true, List.mem_singleton] at hq
    refine Or.inr ⟨se.1, hs, se.2, he, ?_, hq⟩
    simp [he1, hs1]
  · simp at hq

lemma convex_combo_bounds {a b lo hi t : ℚ} (ha1 : lo ≤ a) (ha2 : a ≤ hi)
    (hb1 : lo ≤ b) (hb2 : b ≤ hi) (ht0 : 0 ≤ t) (ht1 : t ≤ 1) :
    lo ≤ a + (b - a) * t ∧ a + (b - a) * t ≤ hi := by
  constructor <;> nlinarith

lemma param_bounds {u v c : ℚ} (h1 : min u v ≤ c) (h2 : c ≤ max u v)
    (hne : u ≠ v) : 0 ≤ (c - u) / (v - u) ∧ (c - u) / (v - u) ≤ 1 := by
  rcases lt_or_gt_of_ne hne with hlt | hlt
  · have hmin : min u v = u := min_eq_left hlt.le
    have hmax : max u v = v := max_eq_right hlt.le
    rw [hmin] at h1; rw [hmax] at h2
    have hp : (0:ℚ) < v - u := by linarith
    constructor
    · exact div_nonneg (by linarith) hp.le
    · rw [div_le_one hp]; linarith
  · have hmin : min u v = v := min_eq_right hlt.le
    have hmax : max u v = u := max_eq_left hlt.le
    rw [hmin] at h1; rw [hmax] at h2
    have heq : (c - u) / (v - u) = (u - c) / (u - v) := by
      rw [show c - u = -(u - c) by ring, show v - u = -(u - v) by ring,
        neg_div_neg_eq]
    rw [heq]
    have hp : (0:ℚ) < u - v := by linarith
    constructor
    · exact div_nonneg (by linarith) hp.le
    · rw [div_le_one hp]; linarith

lemma straddle_of_le_ne {a b c : ℚ} (h : decide (a ≤ c) ≠ decide (b ≤ c)) :
    min a b ≤ c ∧ c ≤ max a b ∧ a ≠ b := by
  by_cases ha : a ≤ c <;> by_cases hb : b ≤ c
  · exact absurd (by rw [decide_eq_true ha, decide_eq_true hb]) h
  · push_neg at hb
    refine ⟨le_trans (min_le_left _ _) ha, le_trans hb.le (le_max_right _ _), ?_⟩
    intro hab; rw [hab] at ha; linarith
  · push_neg at ha
    refine ⟨le_trans (min_le_right _ _) hb, le_trans ha.le (le_max_left _ _), ?_⟩
    intro hab; rw [hab] at ha; linarith
  · exact absurd (by rw [decide_eq_false ha, decide_eq_false hb]) h

lemma straddle_of_ge_ne {a b c : ℚ} (h : decide (c ≤ a) ≠ decide (c ≤ b)) :
    min a b ≤ c ∧ c ≤ max a b ∧ a ≠ b := by
  by_cases ha : c ≤ a <;> by_cases hb : c ≤ b
  · exact absurd (by rw [decide_eq_true ha, decide_eq_true hb]) h
  · push_neg at hb
    refine ⟨le_trans (min_le_right _ _) hb.le, le_trans ha (le_max_left _ _), ?_⟩
    intro hab; rw [hab] at ha; linarith
  · push_neg at ha
    refine ⟨le_trans (min_le_left _ _) ha.le, le_trans hb (le_max_right _ _), ?_⟩
    intro hab; rw [hab] at ha; linarith
  · exact absurd (by rw [decide_eq_false ha, decide_eq_false hb]) h

/-- C1: for every polygon handed to the structured (Page XML) output,
Document.rewarp first applies the inverse dewarping grid to every
vertex (coords.map gridInverse) and then intersects the result with the
axis-aligned box from (0, 0) to (w, h), so every coordinate of the
returned ring is at least 0 and at most the corresponding page
dimension. -/
theorem rewarp_within_page_box (gridInverse : Pt → Pt) (w h : ℚ)
    (coords : List Pt) (hw : 0 ≤ w) (hh : 0 ≤ h) (q : Pt)
    (hq : q ∈ rewarp gridInverse w h coords) :
    0 ≤ q.1 ∧ q.1 ≤ w ∧ 0 ≤ q.2 ∧ q.2 ≤ h := by
  unfold rewarp clipBox at hq
  set P0 : List Pt := coords.map gridInverse with hP0
  set P1 : List Pt :=
    clipHalf (fun p => decide (p.2 ≤ h)) (fun s e => interpAtY s e h) P0 with hP1
  set P2 : List Pt :=
    clipHalf (fun p => decide (0 ≤ p.2)) (fun s e => interpAtY s e 0) P1 with hP2
  set P3 : List Pt :=
    clipHalf (fun p => decide (p.1 ≤ w)) (fun s e => interpAtX s e w) P2 with hP3
  have h1 : ∀ r ∈ P1, r.2 ≤ h := by
    intro r hr
    rcases mem_clipHalf hr with ⟨_, hin⟩ | ⟨s, _, e, _, _, heq⟩
    · exact of_decide_eq_true hin
    · subst heq; exact le_refl h |>.trans_eq rfl
  have h2 : ∀ r ∈ P2, 0 ≤ r.2 ∧ r.2 ≤ h := by
    intro r hr
    rcases mem_clipHalf hr with ⟨hmem, hin⟩ | ⟨s, _, e, _, _, heq⟩
    · exact ⟨of_decide_eq_true hin, h1 r hmem⟩
    · subst heq; exact ⟨le_refl 0, hh⟩
  have h3 : ∀ r ∈ P3, r.1 ≤ w ∧ 0 ≤ r.2 ∧ r.2 ≤ h := by
    intro r hr
    rcases mem_clipHalf hr with ⟨hmem, hin⟩ | ⟨s, hsm, e, hem, hne, heq⟩
    · exact ⟨of_decide_eq_true hin, h2 r hmem⟩
    · subst heq
      obtain ⟨hmn, hmx, hsne⟩ := straddle_of_le_ne hne
      obtain ⟨ht0, ht1⟩ := param_bounds hmn hmx hsne
      obtain ⟨hs0, hsh⟩ := h2 s hsm
      obtain ⟨he0, heh⟩ := h2 e hem
      exact ⟨le_refl w,
        convex_combo_bounds hs0 hsh he0 heh ht0 ht1⟩
  rcases mem_clipHalf hq with ⟨hmem, hin⟩ | ⟨s, hsm, e, hem, hne, heq⟩
  · obtain ⟨hxw, hy0, hyh⟩ := h3 q hmem
    exact ⟨of_decide_eq_true hin, hxw, hy0, hyh⟩
  · subst heq
    obtain ⟨hmn, hmx, hsne⟩ := straddle_of_ge_ne hne
    obtain ⟨ht0, ht1⟩ := param_bounds hmn hmx hsne
    obtain ⟨hsw, hs0, hsh⟩ := h3 s hsm
    obtain ⟨hew, he0, heh⟩ := h3 e hem
    obtain ⟨hy0, hyh⟩ := convex_combo_bounds hs0 hsh he0 heh ht0 ht1
    exact ⟨le_refl 0, hw, hy0, hyh⟩

/-- Witness for C1 at a concrete input. -/
theorem rewarp_within_page_box_witness :
    0 ≤ ((1:ℚ), (1:ℚ)).1 ∧ ((1:ℚ), (1:ℚ)).1 ≤ 10 ∧
      0 ≤ ((1:ℚ), (1:ℚ)).2 ∧ ((1:ℚ), (1:ℚ)).2 ≤ 10 :=
  rewarp_within_page_box (fun p => p) 10 10 [(1, 1), (2, 1), (2, 2)]
    (by decide) (by decide) (1, 1) (by decide)

lemma appendAll_cons (c : PlainTextComposition) (f : List String × String)
    (fs : List (List String × String)) :
    appendAll c (f :: fs) = appendAll (append_text c f.1 f.2) fs := rfl

lemma keptFrags_cons_dropped {f : List String × String}
    (fs : List (List String × String)) (h : pyStrip f.2 = "") :
    keptFrags (f :: fs) = keptFrags fs := by
  simp [keptFrags, List.filter_cons, h]

lemma keptFrags_cons_kept {f : List String × String}
    (fs : List (List String × String)) (h : pyStrip f.2 ≠ "") :
    keptFrags (f :: fs) = f :: keptFrags fs := by
  simp [keptFrags, List.filter_cons, h]

lemma renderTail_cons (sep : String) (q : List String)
    (f : List String × String) (fs : List (List String × String)) :
    renderTail sep q (f :: fs) =
      (if f.1.take 3 ≠ q.take 3 then [sep] else []) ++
        ((pyStrip f.2 ++ "\n") :: renderTail sep f.1 fs) := rfl

lemma renderAll_cons (sep : String) (f : List String × String)
    (fs : List (List String × String)) :
    renderAll sep (f :: fs) = (pyStrip f.2 ++ "\n") :: renderTail sep f.1 fs := rfl

lemma renderTail_length (sep : String) (q : List String)
    (ks : List (List String × String)) :
    (renderTail sep q ks).length = ks.length + transitionsFrom q ks := by
  induction ks generalizing q with
  | nil => simp [renderTail, transitionsFrom]
  | cons f fs ih =>
    rw [renderTail_cons]
    by_cases hp : f.1.take 3 ≠ q.take 3 <;>
      simp [transitionsFrom, hp, ih f.1] <;> omega

lemma appendAll_some (ls sep : String) (q : List String) (T : List String)
    (frags : List (List String × String)) :
    appendAll ⟨ls, sep, T, some q⟩ frags =
      ⟨ls, sep, T ++ renderTail sep q (keptFrags frags),
        some (((keptFrags frags).map Prod.fst).getLastD q)⟩ := by
  induction frags generalizing q T with
  | nil => simp [appendAll, keptFrags, renderTail]
  | cons f fs ih =>
    rw [appendAll_cons]
    by_cases ht : pyStrip f.2 = ""
    · have heq : append_text ⟨ls, sep, T, some q⟩ f.1 f.2 =
          ⟨ls, sep, T, some q⟩ := by
        simp [append_text, ht]
      rw [heq, ih, keptFrags_cons_dropped fs ht]
    · have heq : append_text ⟨ls, sep, T, some q⟩ f.1 f.2 =
          ⟨ls, sep, T ++ ((if f.1.take 3 ≠ q.take 3 then [sep] else []) ++
            [pyStrip f.2 ++ "\n"]), some f.1⟩ := by
        simp [append_text, ht]
      rw [heq, ih, keptFrags_cons_kept fs ht, renderTail_cons]
      refine congrArg₂ _ ?_ ?_
      · simp [List.append_assoc]
      · cases hk : keptFrags fs with
        | nil => simp
        | cons a as =>
          simp only [List.map_cons, List.getLastD_cons, List.getLastD_eq_getLast?]
          cases hL : (a.1 :: List.map Prod.fst as).getLast? with
          | none =>
            rw [List.getLast?_eq_none_iff] at hL
            simp at hL
          | some v => simp [hL]

lemma appendAll_none (ls sep : String)
    (frags : List (List String × String)) :
    appendAll ⟨ls, sep, [], none⟩ frags =
      ⟨ls, sep, renderAll sep (keptFrags frags),
        ((keptFrags frags).map Prod.fst).getLast?⟩ := by
  induction frags with
  | nil => simp [appendAll, keptFrags, renderAll]
  | cons f fs ih =>
    rw [appendAll_cons]
    by_cases ht : pyStrip f.2 = ""
    · have heq : append_text ⟨ls, sep, [], none⟩ f.1 f.2 =
          ⟨ls, sep, [], none⟩ := by
        simp [append_text, ht]
      rw [heq, ih, keptFrags_cons_dropped fs ht]
    · have heq : append_text ⟨ls, sep, [], none⟩ f.1 f.2 =
          ⟨ls, sep, [pyStrip f.2 ++ "\n"], some f.1⟩ := by
        simp [append_text, ht]
      rw [heq, appendAll_some, keptFrags_cons_kept fs ht, renderAll_cons]
      refine congrArg₂ _ rfl ?_
      simp [List.getLast?_cons, List.getLastD_eq_getLast?]

lemma renderAll_head (sep : String) (ks : List (List String × String)) :
    (renderAll sep ks).head? = ks.head?.map (fun f => pyStrip f.2 ++ "\n") := by
  cases ks <;> simp [renderAll]

lemma renderTail_getLast (sep : String) (q : List String)
    (ks : List (List String × String)) :
    (renderTail sep q ks).getLast? =
      ks.getLast?.map (fun f => pyStrip f.2 ++ "\n") := by
  induction ks generalizing q with
  | nil => simp [renderTail]
  | cons f fs ih =>
    cases fs with
    | nil =>
      rw [renderTail_cons]
      by_cases hp : f.1.take 3 ≠ q.take 3 <;> simp [renderTail, hp]
    | cons g gs =>
      have ih2 := ih f.1
      cases hlast : (g :: gs).getLast? with
      | none =>
        rw [List.getLast?_eq_none_iff] at hlast
        simp at hlast
      | some v =>
        rw [hlast] at ih2
        rw [renderTail_cons, List.getLast?_append]
        rw [show ((pyStrip f.2 ++ "\n") :: renderTail sep f.1 (g :: gs)) =
          [pyStrip f.2 ++ "\n"] ++ renderTail sep f.1 (g :: gs) from rfl]
        rw [List.getLast?_append, ih2]
        simp [List.getLast?_cons_cons, hlast]

lemma renderAll_getLast (sep : String) (ks : List (List String × String)) :
    (renderAll sep ks).getLast? =
      ks.getLast?.map (fun f => pyStrip f.2 ++ "\n") := by
  cases ks with
  | nil => simp [renderAll]
  | cons f fs =>
    cases fs with
    | nil => simp [renderAll, renderTail]
    | cons g gs =>
      cases hlast : (g :: gs).getLast? with
      | none =>
        rw [List.getLast?_eq_none_iff] at hlast
        simp at hlast
      | some v =>
        have h2 := renderTail_getLast sep f.1 (g :: gs)
        rw [hlast] at h2
        rw [renderAll_cons]
        rw [show ((pyStrip f.2 ++ "\n") :: renderTail sep f.1 (g :: gs)) =
          [pyStrip f.2 ++ "\n"] ++ renderTail sep f.1 (g :: gs) from rfl]
        rw [List.getLast?_append, h2]
        simp [List.getLast?_cons_cons, hlast]

lemma routeOcrLine_ok_iff (lp : List String) (tx : String) :
    (∃ r, routeOcrLine lp tx = Except.ok r) ↔ ocrLineAdmissible lp = true := by
  unfold routeOcrLine ocrLineAdmissible
  by_cases h1 : 1 < (pySplit chDot ((lp.take 3).getD 2 "")).length
  · rw [if_pos h1, if_pos h1]
    by_cases h2 : (lp.take 3).take 2 = ["regions", "TABULAR"]
    · rw [if_pos h2]
      simp [h2]
    · rw [if_neg h2]
      simp [h2]
  · rw [if_neg h1, if_neg h1]
    by_cases h2 : (lp.take 3).take 2 = ["regions", "TEXT"]
    · rw [if_pos h2]
      simp [h2]
    · rw [if_neg h2]
      simp [h2]

lemma routeAllOcr_ok_iff (ocr : List (List String × String)) :
    (∃ rs, routeAllOcr ocr = Except.ok rs) ↔
      ∀ pr ∈ ocr, ocrLineAdmissible pr.1 = true := by
  induction ocr with
  | nil => simp [routeAllOcr]
  | cons pr rest ih =>
    obtain ⟨lp, tx⟩ := pr
    constructor
    · intro hok
      obtain ⟨rs, hrs⟩ := hok
      unfold routeAllOcr at hrs
      cases hr : routeOcrLine lp tx with
      | error e => rw [hr] at hrs; simp at hrs
      | ok r =>
        rw [hr] at hrs
        cases hrest : routeAllOcr rest with
        | error e => rw [hrest] at hrs; simp at hrs
        | ok rs2 =>
          intro q hq
          rcases List.mem_cons.mp hq with hq1 | hq1
          · subst hq1
            exact (routeOcrLine_ok_iff lp tx).mp ⟨r, hr⟩
          · exact (ih.mp ⟨rs2, hrest⟩) q hq1
    · intro hall
      have hhd : ocrLineAdmissible lp = true :=
        hall (lp, tx) (List.mem_cons_self _ _)
      obtain ⟨r, hr⟩ := (routeOcrLine_ok_iff lp tx).mpr hhd
      obtain ⟨rs, hrs⟩ := ih.mpr (fun q hq => hall q (List.mem_cons_of_mem _ hq))
      refine ⟨r :: rs, ?_⟩
      unfold routeAllOcr
      rw [hr, hrs]

lemma routeAllOcr_length (ocr : List (List String × String))
    (rs : List IngestRoute) (h : routeAllOcr ocr = Except.ok rs) :
    rs.length = ocr.length := by
  induction ocr generalizing rs with
  | nil =>
    unfold routeAllOcr at h
    cases h
    rfl
  | cons pr rest ih =>
    obtain ⟨lp, tx⟩ := pr
    unfold routeAllOcr at h
    cases hr : routeOcrLine lp tx with
    | error e => rw [hr] at h; simp at h
    | ok r =>
      rw [hr] at h
      cases hrest : routeAllOcr rest with
      | error e => rw [hrest] at h; simp at h
      | ok rs2 =>
        rw [hrest] at h
        cases h
        simp [ih rs2 hrest]

/-- C10: during Document construction, an ingested OCR line whose block
id segment splits into more than one dot-separated component must carry
the block path prefix (regions, TABULAR), and every other ingested line
the prefix (regions, TEXT); the ingestion loop of Document.init
succeeds exactly when every line satisfies this, it routes one entry
per line (no line is silently skipped), and a line under any other
namespace or class makes the corresponding assert fail, aborting
construction with an error. -/
theorem ocr_ingest_namespace_assertions (ocr : List (List String × String)) :
    ((∃ rs, routeAllOcr ocr = Except.ok rs) ↔
      ∀ pr ∈ ocr, ocrLineAdmissible pr.1 = true) ∧
    (∀ rs, routeAllOcr ocr = Except.ok rs → rs.length = ocr.length) ∧
    (∀ lp tx, ocrLineAdmissible lp = false →
      ∃ e, routeOcrLine lp tx = Except.error e) := by
  refine ⟨routeAllOcr_ok_iff ocr, fun rs h => routeAllOcr_length ocr rs h, ?_⟩
  intro lp tx hbad
  cases hr : routeOcrLine lp tx with
  | error e => exact ⟨e, rfl⟩
  | ok r =>
    have : ocrLineAdmissible lp = true := (routeOcrLine_ok_iff lp tx).mp ⟨r, hr⟩
    rw [this] at hbad
    cases hbad

/-- Witness for C10: one admissible text line is routed and counted. -/
theorem ocr_ingest_namespace_assertions_witness :
    ([IngestRoute.textLine ["regions", "TEXT", "5"]
        ["regions", "TEXT", "5", "0"] "hi"]).length =
      ([(["regions", "TEXT", "5", "0"], "hi")] :
        List (List String × String)).length :=
  (ocr_ingest_namespace_assertions
    [(["regions", "TEXT", "5", "0"], "hi")]).2.1 _ (by rfl)

/-- C2: Document.get returns the region created for a block path when
one exists; with no region it returns None when every confidence
observed for lines filed under the path lies strictly below the minimum
confidence threshold (signalling a legitimately empty block), and it
raises the consistency error carrying the path and the observed
confidences when some observed confidence reaches the threshold. -/
theorem docGet_spec (d : DocM) (p : List String) :
    (∀ r, d.regions p = some r → docGet d p = GetOut.reg r) ∧
    (d.regions p = none →
      (∀ c ∈ (d.regionLines p).map Line.confidence, c < d.minConfidence) →
      docGet d p = GetOut.nothing) ∧
    (d.regions p = none →
      (∃ c ∈ (d.regionLines p).map Line.confidence, d.minConfidence ≤ c) →
      docGet d p = GetOut.confError p ((d.regionLines p).map Line.confidence)) := by
  refine ⟨?_, ?_, ?_⟩
  · intro r hr
    unfold docGet
    rw [hr]
  · intro hn hall
    unfold docGet
    rw [hn]
    rw [if_pos]
    rw [List.all_eq_true]
    intro c hc
    exact decide_eq_true (hall c hc)
  · intro hn hex
    unfold docGet
    rw [hn]
    rw [if_neg]
    intro hall
    rw [List.all_eq_true] at hall
    obtain ⟨c, hc, hge⟩ := hex
    have := of_decide_eq_true (hall c hc)
    linarith

/-- Example document for the C2 witness: no region was created for the
path, but a line with confidence 9/10 against threshold 1/2 was seen. -/
def c2Doc : DocM :=
  { regions := fun _ => none
    regionLines := fun _ => [⟨⟨true, []⟩, 9/10⟩]
    minConfidence := 1/2
    lines := fun _ => ⟨⟨true, []⟩, 0⟩
    paths := []
    dist := fun _ _ => 0 }

/-- Witness for C2: the mixed-confidence case raises the consistency
error naming the path and the confidences. -/
theorem docGet_spec_witness :
    docGet c2Doc ["regions", "TEXT", "0"] =
      GetOut.confError ["regions", "TEXT", "0"] [9/10] :=
  (docGet_spec c2Doc ["regions", "TEXT", "0"]).2.2 rfl
    ⟨9/10, by simp [c2Doc], by norm_num [c2Doc]⟩

/-- C4: folding PlainTextComposition.append_text over any fragment
sequence: fragments whose stripped text is empty are dropped without
emitting anything or updating the remembered path; the emitted chunk
list equals the spec-side rendering of the kept fragments, in which one
separator element stands immediately before a kept fragment exactly
when its 3-segment block path differs from the previous kept fragment;
consequently the chunk count is the kept-fragment count plus the
transition count (exactly one separator per transition), and the first
and last chunks are always stripped fragment texts plus newline, never
separators. -/
theorem plain_text_separator_discipline (ls sep : String)
    (frags : List (List String × String)) :
    (appendAll ⟨ls, sep, [], none⟩ frags).texts =
        renderAll sep (keptFrags frags) ∧
    (appendAll ⟨ls, sep, [], none⟩ frags).path =
        ((keptFrags frags).map Prod.fst).getLast? ∧
    (renderAll sep (keptFrags frags)).length =
        (keptFrags frags).length + transitionCount (keptFrags frags) ∧
    (renderAll sep (keptFrags frags)).head? =
        (keptFrags frags).head?.map (fun f => pyStrip f.2 ++ "\n") ∧
    (renderAll sep (keptFrags frags)).getLast? =
        (keptFrags frags).getLast?.map (fun f => pyStrip f.2 ++ "\n") := by
  refine ⟨?_, ?_, ?_, renderAll_head sep _, renderAll_getLast sep _⟩
  · rw [appendAll_none]
  · rw [appendAll_none]
  · cases hk : keptFrags frags with
    | nil => simp [renderAll, transitionCount]
    | cons f fs =>
      simp [renderAll_cons, renderTail_length, transitionCount]
      omega

/-- Example fragment sequence for the C4 witness. -/
def c4Frags : List (List String × String) :=
  [(["regions", "TEXT", "0", "0"], " hi "),
   (["regions", "TEXT", "0", "1"], "  "),
   (["regions", "TEXT", "1", "0"], "yo")]

/-- Witness for C4: the whitespace-only middle fragment is dropped and
exactly one separator marks the single block transition. -/
theorem plain_text_separator_discipline_witness :
    (appendAll ⟨"\n", "SEP", [], none⟩ c4Frags).texts =
        renderAll "SEP" (keptFrags c4Frags) ∧
      renderAll "SEP" (keptFrags c4Frags) = ["hi\n", "SEP", "yo\n"] :=
  ⟨(plain_text_separator_discipline "\n" "SEP" c4Frags).1, by decide⟩

lemma exportTextLines_spec (tr : TextRegionData)
    (transform : List Pt → List Pt) (ps : List (List String)) :
    (ps.find? (offends tr) = none →
      exportTextLines tr transform ps =
        Except.ok ((ps.filter
            (fun p => !(tr.lines p).imageSpacePolygon.isEmpty)).map
          (fun p => ⟨pyJoin "-" p,
            transform (tr.lines p).imageSpacePolygon.exterior,
            tr.lineTexts p⟩))) ∧
    (∀ p, ps.find? (offends tr) = some p →
      exportTextLines tr transform ps =
        Except.error ⟨p, tr.lineTexts p, (tr.lines p).confidence⟩) := by
  induction ps with
  | nil => simp [exportTextLines]
  | cons q qs ih =>
    by_cases hemp : (tr.lines q).imageSpacePolygon.isEmpty = true
    · by_cases htxt : tr.lineTexts q = ""
      · have hoff : ¬offends tr q = true := by simp [offends, hemp, htxt]
        have hskip : exportTextLines tr transform (q :: qs) =
            exportTextLines tr transform qs := by
          conv_lhs => rw [exportTextLines]
          rw [if_pos hemp, if_neg (by simp [htxt])]
        have hfil : (q :: qs).filter
            (fun p => !(tr.lines p).imageSpacePolygon.isEmpty) =
            qs.filter (fun p => !(tr.lines p).imageSpacePolygon.isEmpty) := by
          rw [List.filter_cons_of_neg (by simp [hemp])]
        constructor
        · intro hnone
          rw [List.find?_cons_of_neg _ hoff] at hnone
          rw [hskip, hfil]
          exact ih.1 hnone
        · intro p hp
          rw [List.find?_cons_of_neg _ hoff] at hp
          rw [hskip]
          exact ih.2 p hp
      · have hoff : offends tr q = true := by simp [offends, hemp, htxt]
        have herr : exportTextLines tr transform (q :: qs) =
            Except.error ⟨q, tr.lineTexts q, (tr.lines q).confidence⟩ := by
          unfold exportTextLines
          rw [if_pos hemp, if_pos (by simp [htxt])]
        constructor
        · intro hnone
          rw [List.find?_cons_of_pos _ hoff] at hnone
          cases hnone
        · intro p hp
          rw [List.find?_cons_of_pos _ hoff] at hp
          injection hp with hp
          subst hp
          exact herr
    · have hoff : ¬offends tr q = true := by simp [offends, hemp]
      have hfil : (q :: qs).filter
          (fun p => !(tr.lines p).imageSpacePolygon.isEmpty) =
          q :: qs.filter (fun p => !(tr.lines p).imageSpacePolygon.isEmpty) := by
        rw [List.filter_cons_of_pos (by simp [hemp])]
      constructor
      · intro hnone
        rw [List.find?_cons_of_neg _ hoff] at hnone
        have hok := ih.1 hnone
        unfold exportTextLines
        rw [if_neg hemp, hok, hfil]
        simp
      · intro p hp
        rw [List.find?_cons_of_neg _ hoff] at hp
        have herr := ih.2 p hp
        unfold exportTextLines
        rw [if_neg hemp, herr]

/-- C8: during structured export of a Text region, a held line whose
geometry is empty but whose text is non-empty aborts the export with
the RuntimeError carrying the offending line path (whose first three
segments name the block), the text and the confidence; a held line with
empty geometry and empty text is skipped silently; when no held line
offends, the export succeeds and emits exactly the held lines with
non-empty geometry, in order. -/
theorem text_region_geometry_consistency (tr : TextRegionData)
    (transform : List Pt → List Pt) :
    (firstOffender tr = none →
      TextRegionData.export_page_xml tr transform =
        Except.ok ⟨pyJoin "-" tr.blockPath, transform tr.polygon.exterior,
          emittedTextLines tr transform⟩) ∧
    (∀ p, firstOffender tr = some p →
      p ∈ tr.order ∧ (tr.lines p).imageSpacePolygon.isEmpty = true ∧
      tr.lineTexts p ≠ "" ∧
      TextRegionData.export_page_xml tr transform =
        Except.error ⟨p, tr.lineTexts p, (tr.lines p).confidence⟩) := by
  constructor
  · intro hnone
    have hok := (exportTextLines_spec tr transform tr.order).1 hnone
    unfold TextRegionData.export_page_xml
    rw [hok]
    rfl
  · intro p hp
    have herr := (exportTextLines_spec tr transform tr.order).2 p hp
    have hmem : p ∈ tr.order := List.mem_of_find?_eq_some hp
    have hoff : offends tr p = true := List.find?_some hp
    unfold offends at hoff
    rw [Bool.and_eq_true] at hoff
    refine ⟨hmem, hoff.1, of_decide_eq_true hoff.2, ?_⟩
    unfold TextRegionData.export_page_xml
    rw [herr]

/-- Example region for the C8 witness: one held line with text but
empty geometry. -/
def c8tr : TextRegionData :=
  { blockPath := ["regions", "TEXT", "0"]
    polygon := ⟨false, [(0, 0), (1, 0), (1, 1)]⟩
    lines := fun _ => ⟨⟨true, []⟩, 1/2⟩
    lineTexts := fun _ => "boom"
    order := [["regions", "TEXT", "0", "0"]] }

/-- Witness for C8: the offending line aborts the export with its path,
text and confidence. -/
theorem text_region_geometry_consistency_witness :
    TextRegionData.export_page_xml c8tr (fun c => c) =
      Except.error ⟨["regions", "TEXT", "0", "0"], "boom", 1/2⟩ :=
  ((text_region_geometry_consistency c8tr (fun c => c)).2
    ["regions", "TEXT", "0", "0"] (by rfl)).2.2.2

lemma exportTableCell_some {t : TableRegionData}
    {transform : List Pt → List Pt} {did : String} {c d r : ℤ}
    {cl : PxCell} {sh : Polygon}
    (h : exportTableCell t transform did c d r = some (cl, sh)) :
    ∃ b, t.blocks (c, d, r) = some b ∧ b.isEmpty = false ∧
      cl.coords = transform b.exterior ∧ sh = b := by
  unfold exportTableCell at h
  cases hb : t.blocks (c, d, r) with
  | none => rw [hb] at h; cases h
  | some b =>
    rw [hb] at h
    dsimp only at h
    by_cases hbe : b.isEmpty = true
    · rw [if_pos hbe] at h; cases h
    · rw [if_neg hbe] at h
      simp only [Option.some.injEq, Prod.mk.injEq] at h
      obtain ⟨hcl, hsh⟩ := h
      refine ⟨b, rfl, by simp [hbe], ?_, hsh.symm⟩
      rw [← hcl]

lemma exportTableDivision_some {pu : List Polygon → Polygon}
    {t : TableRegionData} {transform : List Pt → List Pt} {cid : String}
    {c d : ℤ} {dv : PxDivision} {sh : Polygon}
    (h : exportTableDivision pu t transform cid c d = some (dv, sh)) :
    dv.cells ≠ [] ∧ ∀ cl ∈ dv.cells, ∃ c2 d2 r b,
      t.blocks (c2, d2, r) = some b ∧ b.isEmpty = false ∧
      cl.coords = transform b.exterior := by
  unfold exportTableDivision at h
  cases hcs : (sortedSet (t.rows d)).filterMap
      (exportTableCell t transform (cid ++ "." ++ toString d) c d) with
  | nil => rw [hcs] at h; cases h
  | cons x xs =>
    rw [hcs] at h
    simp only [Option.some.injEq, Prod.mk.injEq] at h
    obtain ⟨hdv, hsh⟩ := h
    constructor
    · rw [← hdv]; simp
    · intro cl hcl
      rw [← hdv] at hcl
      simp only [List.mem_map] at hcl
      obtain ⟨pr, hpr, hprcl⟩ := hcl
      have hpr2 : pr ∈ (sortedSet (t.rows d)).filterMap
          (exportTableCell t transform (cid ++ "." ++ toString d) c d) := by
        rw [hcs]; exact hpr
      obtain ⟨r, _, hr⟩ := List.mem_filterMap.mp hpr2
      obtain ⟨pc, psh⟩ := pr
      obtain ⟨b, hb, hbe, hcoords, _⟩ := exportTableCell_some hr
      exact ⟨c, d, r, b, hb, hbe, by rw [← hprcl]; exact hcoords⟩

lemma exportTableColumn_some {pu : List Polygon → Polygon}
    {t : TableRegionData} {transform : List Pt → List Pt} {tid : String}
    {c : ℤ} {col : PxColumn} {sh : Polygon}
    (h : exportTableColumn pu t transform tid c = some (col, sh)) :
    col.divisions ≠ [] ∧ ∀ dv ∈ col.divisions, dv.cells ≠ [] ∧
      ∀ cl ∈ dv.cells, ∃ c2 d2 r b,
        t.blocks (c2, d2, r) = some b ∧ b.isEmpty = false ∧
        cl.coords = transform b.exterior := by
  unfold exportTableColumn at h
  cases hds : (sortedSet t.divisions).filterMap
      (exportTableDivision pu t transform (tid ++ "." ++ toString c) c) with
  | nil => rw [hds] at h; cases h
  | cons x xs =>
    rw [hds] at h
    simp only [Option.some.injEq, Prod.mk.injEq] at h
    obtain ⟨hcol, hsh⟩ := h
    constructor
    · rw [← hcol]; simp
    · intro dv hdv
      rw [← hcol] at hdv
      simp only [List.mem_map] at hdv
      obtain ⟨pr, hpr, hprdv⟩ := hdv
      have hpr2 : pr ∈ (sortedSet t.divisions).filterMap
          (exportTableDivision pu t transform (tid ++ "." ++ toString c) c) := by
        rw [hds]; exact hpr
      obtain ⟨d, _, hd⟩ := List.mem_filterMap.mp hpr2
      obtain ⟨pdv, psh⟩ := pr
      obtain ⟨hne, hall⟩ := exportTableDivision_some hd
      rw [← hprdv]
      exact ⟨hne, hall⟩

/-- C3: in structured export of a table region, every emitted division
element contains at least one emitted cell, every emitted cell comes
from an existing, non-empty sub-block polygon, every emitted column
contains at least one emitted division, the table element survives
exactly when at least one column survived, and a table with zero
surviving columns is dropped from the output with a warning logged
(the warning list is non-empty exactly in the dropped case). -/
theorem table_pruning (pu : List Polygon → Polygon) (t : TableRegionData)
    (transform : List Pt → List Pt) :
    (∀ tb, (TableRegionData.export_page_xml pu t transform).1 = some tb →
      tb.columns ≠ [] ∧
      (∀ col ∈ tb.columns, col.divisions ≠ []) ∧
      (∀ col ∈ tb.columns, ∀ dv ∈ col.divisions, dv.cells ≠ []) ∧
      (∀ col ∈ tb.columns, ∀ dv ∈ col.divisions, ∀ cl ∈ dv.cells,
        ∃ c d r b, t.blocks (c, d, r) = some b ∧ b.isEmpty = false ∧
          cl.coords = transform b.exterior)) ∧
    ((TableRegionData.export_page_xml pu t transform).1 = none ↔
      (sortedSet t.columns).filterMap
        (exportTableColumn pu t transform (pyJoin "-" t.blockPath)) = []) ∧
    ((TableRegionData.export_page_xml pu t transform).1 = none ↔
      (TableRegionData.export_page_xml pu t transform).2 ≠ []) := by
  have hmain : ∀ col sh2, (col, sh2) ∈ (sortedSet t.columns).filterMap
      (exportTableColumn pu t transform (pyJoin "-" t.blockPath)) →
      col.divisions ≠ [] ∧ ∀ dv ∈ col.divisions, dv.cells ≠ [] ∧
        ∀ cl ∈ dv.cells, ∃ c2 d2 r b,
          t.blocks (c2, d2, r) = some b ∧ b.isEmpty = false ∧
          cl.coords = transform b.exterior := by
    intro col sh2 hmem
    obtain ⟨c, _, hc⟩ := List.mem_filterMap.mp hmem
    exact exportTableColumn_some hc
  unfold TableRegionData.export_page_xml
  cases hcs : (sortedSet t.columns).filterMap
      (exportTableColumn pu t transform (pyJoin "-" t.blockPath)) with
  | nil =>
    refine ⟨?_, ?_, ?_⟩
    · intro tb htb
      cases htb
    · simp
    · simp
  | cons x xs =>
    refine ⟨?_, ?_, ?_⟩
    · intro tb htb
      simp only [Option.some.injEq] at htb
      have hcols : tb.columns = (x :: xs).map Prod.fst := by rw [← htb]
      refine ⟨by rw [hcols]; simp, ?_, ?_, ?_⟩
      · intro col hcol
        rw [hcols] at hcol
        simp only [List.mem_map] at hcol
        obtain ⟨pr, hpr, hprcol⟩ := hcol
        have := hmain pr.1 pr.2 (by rw [hcs]; exact hpr)
        rw [← hprcol]
        exact this.1
      · intro col hcol dv hdv
        rw [hcols] at hcol
        simp only [List.mem_map] at hcol
        obtain ⟨pr, hpr, hprcol⟩ := hcol
        have := hmain pr.1 pr.2 (by rw [hcs]; exact hpr)
        rw [← hprcol] at hdv
        exact (this.2 dv hdv).1
      · intro col hcol dv hdv cl hcl
        rw [hcols] at hcol
        simp only [List.mem_map] at hcol
        obtain ⟨pr, hpr, hprcol⟩ := hcol
        have := hmain pr.1 pr.2 (by rw [hcs]; exact hpr)
        rw [← hprcol] at hdv
        exact (this.2 dv hdv).2 cl hcl
    · simp
    · simp

/-- Example empty table for the C3 witness: no columns at all. -/
def c3t : TableRegionData :=
  { blockPath := ["regions", "TABULAR", "7"]
    lines := fun _ => ⟨⟨false, []⟩, 0⟩
    divisions := []
    rows := fun _ => []
    columns := []
    texts := fun _ => []
    blocks := fun _ => none }

/-- Witness for C3: a table with zero renderable columns is dropped and
the warning list is non-empty. -/
theorem table_pruning_witness :
    (TableRegionData.export_page_xml (fun _ => ⟨true, []⟩) c3t
      (fun c => c)).2 ≠ [] :=
  (table_pruning (fun _ => ⟨true, []⟩) c3t (fun c => c)).2.2.mp (by rfl)

lemma mem_insertSorted (x y : ℤ) (l : List ℤ) :
    y ∈ insertSorted x l ↔ y = x ∨ y ∈ l := by
  induction l with
  | nil => simp [insertSorted]
  | cons z zs ih =>
    unfold insertSorted
    by_cases hle : x ≤ z
    · rw [if_pos hle]
      simp
    · rw [if_neg hle]
      simp [ih]
      tauto

lemma mem_foldr_insertSorted (x : ℤ) (l : List ℤ) :
    x ∈ l.foldr insertSorted [] ↔ x ∈ l := by
  induction l with
  | nil => simp
  | cons z zs ih => simp [mem_insertSorted, ih]

lemma mem_sortedSet (x : ℤ) (l : List ℤ) : x ∈ sortedSet l ↔ x ∈ l := by
  unfold sortedSet
  rw [mem_foldr_insertSorted, List.mem_dedup]

lemma length_insertSorted (x : ℤ) (l : List ℤ) :
    (insertSorted x l).length = l.length + 1 := by
  induction l with
  | nil => simp [insertSorted]
  | cons z zs ih =>
    unfold insertSorted
    by_cases hle : x ≤ z
    · rw [if_pos hle]; simp
    · rw [if_neg hle]; simp [ih]

lemma length_sortedSet (l : List ℤ) :
    (sortedSet l).length = l.dedup.length := by
  unfold sortedSet
  induction l.dedup with
  | nil => simp
  | cons z zs ih => simp [length_insertSorted, ih]

lemma sortedSet_nonempty_iff (l : List ℤ) :
    1 ≤ (sortedSet l).length ↔ l ≠ [] := by
  rw [length_sortedSet]
  constructor
  · intro h hl
    subst hl
    simp at h
  · intro h
    have : l.dedup ≠ [] := fun hc => h ((List.dedup_eq_nil l).mp hc)
    cases hd : l.dedup with
    | nil => exact absurd hd this
    | cons a as => simp [hd]

lemma list_length_le_sum (l : List ℕ) (h : ∀ x ∈ l, 1 ≤ x) :
    l.length ≤ l.sum := by
  induction l with
  | nil => simp
  | cons a as ih =>
    simp only [List.length_cons, List.sum_cons]
    have ha := h a (List.mem_cons_self _ _)
    have := ih (fun x hx => h x (List.mem_cons_of_mem _ hx))
    omega

lemma tableDataOf_length (t : TableRegionData) :
    (tableDataOf t).length = (nRowsOf t).sum := by
  unfold tableDataOf nRowsOf
  rw [List.flatMap, List.length_flatten, List.map_map]
  congr 1
  apply List.map_congr_left
  intro d _
  simp

lemma nRowsOf_pos (t : TableRegionData)
    (hdiv : ∀ d ∈ t.divisions, t.rows d ≠ []) :
    ∀ x ∈ nRowsOf t, 1 ≤ x := by
  intro x hx
  unfold nRowsOf at hx
  obtain ⟨d, hd, hxd⟩ := List.mem_map.mp hx
  have hd2 : d ∈ t.divisions := (mem_sortedSet d t.divisions).mp hd
  rw [← hxd]
  exact (sortedSet_nonempty_iff (t.rows d)).mpr (hdiv d hd2)

lemma header_cond_iff (t : TableRegionData)
    (hdiv : ∀ d ∈ t.divisions, t.rows d ≠ []) :
    (2 ≤ (nRowsOf t).length ∧ (nRowsOf t).headD 0 = 1) ↔
      ((nRowsOf t).headD 0 = 1 ∧ 2 ≤ (nRowsOf t).sum) := by
  have hpos := nRowsOf_pos t hdiv
  constructor
  · rintro ⟨hlen, hhd⟩
    exact ⟨hhd, le_trans hlen (list_length_le_sum _ hpos)⟩
  · rintro ⟨hhd, hsum⟩
    refine ⟨?_, hhd⟩
    cases hn : nRowsOf t with
    | nil => rw [hn] at hsum; simp at hsum
    | cons a as =>
      cases as with
      | nil =>
        rw [hn] at hhd hsum
        simp at hhd hsum
        omega
      | cons b bs => simp

/-- C9: in plain-text export of a table, a single-column table is
rendered as the newline-joined list of its cell texts instead of a
formatted table; a multi-column table is rendered through tabulate with
headers equal to firstrow exactly when the first division contains
exactly one row and the table has at least two rows in total (under the
construction invariant that every observed division has at least one
observed row), and with no headers otherwise. -/
theorem table_to_text_modes (t : TableRegionData)
    (tab : List (List String) → Bool → String)
    (hdiv : ∀ d ∈ t.divisions, t.rows d ≠ []) :
    ((sortedSet t.columns).length = 1 →
      TableRegionData.to_text t tab =
        pyJoin "\n" ((tableDataOf t).map (fun row => String.join row))) ∧
    ((sortedSet t.columns).length ≠ 1 →
      TableRegionData.to_text t tab =
        tab (tableDataOf t)
          (decide (2 ≤ (nRowsOf t).length ∧ (nRowsOf t).headD 0 = 1)) ∧
      (decide (2 ≤ (nRowsOf t).length ∧ (nRowsOf t).headD 0 = 1) = true ↔
        ((nRowsOf t).headD 0 = 1 ∧ 2 ≤ (tableDataOf t).length))) := by
  constructor
  · intro hone
    unfold TableRegionData.to_text
    rw [if_pos hone]
  · intro hone
    constructor
    · unfold TableRegionData.to_text
      rw [if_neg hone]
    · rw [decide_eq_true_eq, tableDataOf_length]
      exact header_cond_iff t hdiv

/-- Example single-column table for the C9 witness. -/
def c9t : TableRegionData :=
  { blockPath := ["regions", "TABULAR", "3"]
    lines := fun _ => ⟨⟨false, []⟩, 0⟩
    divisions := [0]
    rows := fun _ => [0, 1]
    columns := [4]
    texts := fun k => if k = (0, 0, 4) then [(["regions", "TABULAR",
      "3.0.0.4", "0"], " a ")] else [(["regions", "TABULAR",
      "3.0.1.4", "0"], "b")]
    blocks := fun _ => none }

/-- Witness for C9: the single-column table degrades to the joined
line list. -/
theorem table_to_text_modes_witness :
    TableRegionData.to_text c9t (fun _ _ => "TABLE") =
      pyJoin "\n" ((tableDataOf c9t).map (fun row => String.join row)) :=
  (table_to_text_modes c9t (fun _ _ => "TABLE") (by decide)).1 (by decide)

lemma bumpIndex_ge (pyInt : String → ℤ) (m : List String → ℤ)
    (p : List String) (k : List String) : m k ≤ bumpIndex pyInt m p k := by
  unfold bumpIndex
  by_cases hk : k = p.take 2
  · rw [if_pos hk, hk]
    exact le_max_left _ _
  · rw [if_neg hk]

lemma foldl_bumpIndex_ge (pyInt : String → ℤ) (l : List (List String))
    (m : List String → ℤ) (k : List String) :
    m k ≤ (l.foldl (bumpIndex pyInt) m) k := by
  induction l generalizing m with
  | nil => simp
  | cons p ps ih =>
    simp only [List.foldl_cons]
    exact le_trans (bumpIndex_ge pyInt m p k) (ih _)

lemma foldl_bumpIndex_observed (pyInt : String → ℤ)
    (paths : List (List String)) :
    ∀ m : List String → ℤ, ∀ p ∈ paths,
      pyInt (p.getD 2 "") ≤ (paths.foldl (bumpIndex pyInt) m) (p.take 2) := by
  induction paths with
  | nil =>
    intro m p hp
    cases hp
  | cons q qs ih =>
    intro m p hp
    simp only [List.foldl_cons]
    rcases List.mem_cons.mp hp with h1 | h1
    · subst h1
      refine le_trans ?_ (foldl_bumpIndex_ge pyInt qs _ _)
      unfold bumpIndex
      rw [if_pos rfl]
      exact le_max_right _ _
    · exact ih _ p h1

lemma initRegionIndices_ge_observed (pyInt : String → ℤ)
    (paths : List (List String)) :
    ∀ p ∈ paths,
      pyInt (p.getD 2 "") ≤ initRegionIndices pyInt paths (p.take 2) :=
  foldl_bumpIndex_observed pyInt paths _

/-- C5: a flush of a non-empty run of regionless lines (all sharing
one namespace/class prefix) succeeds and appends exactly one merged
region holding all accumulated lines in accumulation order, under the
prefix extended by a freshly allocated index equal to the stored
per-prefix counter plus one; under the counter invariant (the counter
dominates every index observed in the document paths, as it does right
after RegionReadingOrder.init by the last conjunct, and every earlier
allocation, since flushes only raise counters), the fresh index is
strictly greater than every observed index of that prefix, so
allocated indices never collide with existing ones and increase
strictly across flushes; the counters never decrease and the invariant
is preserved. -/
theorem flush_allocates_fresh_index (pu : List Polygon → Polygon)
    (pyInt : String → ℤ) (d : DocM) (st : ROState)
    (p0 : List String) (rest : List (List String))
    (hrun : st.regionlessTextLines = p0 :: rest)
    (hshare : ∀ p ∈ st.regionlessTextLines, p.take 2 = p0.take 2)
    (hinv : ∀ p ∈ d.paths,
      pyInt (p.getD 2 "") ≤ st.regionIndices (p.take 2)) :
    flushRegionlessLines pu d st = Except.ok
      { orderedRegions := st.orderedRegions ++
          [RoEntry.merged
            { basePath := p0.take 2
              index := st.regionIndices (p0.take 2) + 1
              mlines := st.regionlessTextLines.map (fun p => (p, d.lines p))
              polygon := pu (st.regionlessTextLines.map
                (fun p => (d.lines p).imageSpacePolygon)) }]
        regionlessTextLines := []
        regionIndices := fun k =>
          if k = p0.take 2 then st.regionIndices (p0.take 2) + 1
          else st.regionIndices k } ∧
    (∀ p ∈ d.paths, p.take 2 = p0.take 2 →
      pyInt (p.getD 2 "") < st.regionIndices (p0.take 2) + 1) ∧
    (∀ k, st.regionIndices k ≤
      (if k = p0.take 2 then st.regionIndices (p0.take 2) + 1
        else st.regionIndices k)) ∧
    (∀ p ∈ d.paths, pyInt (p.getD 2 "") ≤
      (if p.take 2 = p0.take 2 then st.regionIndices (p0.take 2) + 1
        else st.regionIndices (p.take 2))) ∧
    (∀ p ∈ d.paths,
      pyInt (p.getD 2 "") ≤ initRegionIndices pyInt d.paths (p.take 2)) := by
  refine ⟨?_, ?_, ?_, ?_, initRegionIndices_ge_observed pyInt d.paths⟩
  · have hall : (st.regionlessTextLines.all
        (fun p => decide (p.take 2 = p0.take 2))) = true :=
      List.all_eq_true.mpr (fun p hp => decide_eq_true (hshare p hp))
    unfold flushRegionlessLines
    rw [hrun] at hall ⊢
    dsimp only
    rw [if_pos hall]
  · intro p hp hpfx
    have := hinv p hp
    rw [hpfx] at this
    omega
  · intro k
    by_cases hk : k = p0.take 2
    · rw [if_pos hk, hk]
      omega
    · rw [if_neg hk]
  · intro p hp
    by_cases hk : p.take 2 = p0.take 2
    · rw [if_pos hk]
      have := hinv p hp
      rw [hk] at this
      omega
    · rw [if_neg hk]
      exact hinv p hp

/-- The document paths for the C5 witness. -/
def c5paths : List (List String) := [["regions", "TEXT", "3"]]

/-- The modelled int() parse for the C5 witness: the only document
path has id segment 3. -/
def c5pyInt : String → ℤ := fun _ => 3

/-- The document for the C5 witness. -/
def c5d : DocM :=
  { regions := fun _ => none
    regionLines := fun _ => []
    minConfidence := 1/2
    lines := fun _ => ⟨⟨false, [(0, 0)]⟩, 1⟩
    paths := c5paths
    dist := fun _ _ => 0 }

/-- The reading-order state for the C5 witness: two accumulated
regionless lines and the index table built from the document paths. -/
def c5st : ROState :=
  { orderedRegions := []
    regionlessTextLines :=
      [["regions", "TEXT", "3", "0"], ["regions", "TEXT", "3", "1"]]
    regionIndices := initRegionIndices c5pyInt c5paths }

/-- Witness for C5 at a concrete flush. -/
theorem flush_allocates_fresh_index_witness :
    flushRegionlessLines (fun _ => ⟨true, []⟩) c5d c5st = Except.ok
      { orderedRegions := c5st.orderedRegions ++
          [RoEntry.merged
            { basePath := (["regions", "TEXT", "3", "0"] : List String).take 2
              index := c5st.regionIndices
                ((["regions", "TEXT", "3", "0"] : List String).take 2) + 1
              mlines := c5st.regionlessTextLines.map
                (fun p => (p, c5d.lines p))
              polygon := (fun _ => (⟨true, []⟩ : Polygon))
                (c5st.regionlessTextLines.map
                  (fun p => (c5d.lines p).imageSpacePolygon)) }]
        regionlessTextLines := []
        regionIndices := fun k =>
          if k = (["regions", "TEXT", "3", "0"] : List String).take 2 then
            c5st.regionIndices
              ((["regions", "TEXT", "3", "0"] : List String).take 2) + 1
          else c5st.regionIndices k } :=
  (flush_allocates_fresh_index (fun _ => ⟨true, []⟩) c5pyInt c5d c5st
    ["regions", "TEXT", "3", "0"] [["regions", "TEXT", "3", "1"]]
    rfl (by decide) (by decide)).1

/-- The document for the C6 counterexample: the external polygon
distance reports 100 for every pair, far beyond the threshold 5. -/
def c6d : DocM :=
  { regions := fun _ => none
    regionLines := fun _ => []
    minConfidence := 1/2
    lines := fun p => if p = ["regions", "TEXT", "4", "0"] then
        ⟨⟨false, [(0, 0)]⟩, 1⟩ else ⟨⟨false, [(1000, 0)]⟩, 1⟩
    paths := []
    dist := fun _ _ => 100 }

/-- The accumulating state for the C6 counterexample. -/
def c6st : ROState :=
  { orderedRegions := []
    regionlessTextLines := [["regions", "TEXT", "4", "0"]]
    regionIndices := fun _ => 0 }

/-- C6 counterexample: the next line shares the block path but its
geometry is 100 away from the previous line, far beyond the small
threshold 5; the claim demands the run be flushed first, yet the code
appends the line to the current run with no flush (no merged region is
created and the run grows), because is_adjacent returns true on both
branches of its distance test. -/
theorem adjacency_distance_ignored :
    c6d.dist (c6d.lines ["regions", "TEXT", "4", "0"]).imageSpacePolygon
        (c6d.lines ["regions", "TEXT", "4", "1"]).imageSpacePolygon = 100 ∧
    ¬((100 : ℚ) < 5) ∧
    isAdjacent c6d c6st ["regions", "TEXT", "4", "1"] = true ∧
    addRegionlessLine (fun _ => ⟨true, []⟩) c6d c6st
        ["regions", "TEXT", "4", "1"] =
      Except.ok ⟨[], [["regions", "TEXT", "4", "0"],
        ["regions", "TEXT", "4", "1"]], c6st.regionIndices⟩ := by
  refine ⟨rfl, by norm_num, rfl, rfl⟩

/-- C6 amended: the sole criterion for appending to the current run is
that a run is accumulating and the new line shares the last
accumulated line's 3-segment block path; the distance test is computed
but its result is ignored (both branches return true, the FIXME in the
source). When the criterion holds the line joins the current run with
no flush; when it fails the run is flushed first and a new run starts
with this line. -/
theorem adjacency_criterion (pu : List Polygon → Polygon) (d : DocM)
    (st : ROState) (lp : List String) :
    (isAdjacent d st lp = true ↔
      ∃ q, st.regionlessTextLines.getLast? = some q ∧
        q.take 3 = lp.take 3) ∧
    (isAdjacent d st lp = true →
      addRegionlessLine pu d st lp =
        Except.ok { st with regionlessTextLines :=
          st.regionlessTextLines ++ [lp] }) ∧
    (isAdjacent d st lp = false →
      addRegionlessLine pu d st lp =
        (flushRegionlessLines pu d st).map (fun st2 =>
          { st2 with regionlessTextLines :=
            st2.regionlessTextLines ++ [lp] })) := by
  refine ⟨?_, ?_, ?_⟩
  · unfold isAdjacent
    cases hlast : st.regionlessTextLines.getLast? with
    | none => simp
    | some q =>
      dsimp only
      by_cases hq : q.take 3 ≠ lp.take 3
      · rw [if_pos hq]
        simp [hq]
      · rw [if_neg hq, ite_self]
        push_neg at hq
        simp [hq]
  · intro h
    unfold addRegionlessLine
    rw [if_pos h]
  · intro h
    unfold addRegionlessLine
    rw [if_neg (by simp [h])]
    cases hf : flushRegionlessLines pu d st with
    | error e => simp [Except.map]
    | ok st2 => simp [Except.map]

/-- Witness for the amended C6: with an empty run the line is not
adjacent, so the (no-op) flush runs first and a new run starts. -/
theorem adjacency_criterion_witness :
    addRegionlessLine (fun _ => ⟨true, []⟩) c6d
        ⟨[], [], fun _ => 0⟩ ["regions", "TEXT", "4", "0"] =
      (flushRegionlessLines (fun _ => ⟨true, []⟩) c6d
          ⟨[], [], fun _ => 0⟩).map
        (fun st2 => { st2 with regionlessTextLines :=
          st2.regionlessTextLines ++ [["regions", "TEXT", "4", "0"]] }) :=
  (adjacency_criterion (fun _ => ⟨true, []⟩) c6d
    ⟨[], [], fun _ => 0⟩ ["regions", "TEXT", "4", "0"]).2.2 rfl

/-- The document for the C7 theorems. -/
def c7d : DocM :=
  { regions := fun _ => none
    regionLines := fun _ => []
    minConfidence := 1/2
    lines := fun _ => ⟨⟨false, [(0, 0)]⟩, 1⟩
    paths := []
    dist := fun _ _ => 0 }

/-- C7 counterexample: a path of length 5 under regions TEXT is
accepted by RegionReadingOrder.append and processed as a line
reference (the run gains the path, no exception), refuting that every
length other than 3 and 4 is a fatal input-format error in the
reading-order reconstructor. -/
theorem path_length_dispatch_counterexample :
    (["regions", "TEXT", "9", "0", "x"] : List String).length ≠ 3 ∧
    (["regions", "TEXT", "9", "0", "x"] : List String).length ≠ 4 ∧
    roAppend (fun _ => ⟨true, []⟩) c7d ⟨[], [], fun _ => 0⟩
        ["regions", "TEXT", "9", "0", "x"] =
      Except.ok ⟨[], [["regions", "TEXT", "9", "0", "x"]], fun _ => 0⟩ := by
  refine ⟨by decide, by decide, rfl⟩

/-- C7 amended: in RegionReadingOrder.append a length-3 path is
processed as a block reference, any path longer than 3 is processed as
a line reference (after the regions TEXT assert), and only a path
shorter than 3 raises the ValueError; in the plain-text exporter the
dispatch is exact: length 3 is a block, length 4 a line, and any other
length of an unfiltered path raises. -/
theorem path_length_dispatch (pu : List Polygon → Polygon)
    (tab : List (List String) → Bool → String)
    (bf : Option (List String → Bool)) (d : DocM) (st : ROState)
    (c : PlainTextComposition) (path : List String) :
    (path.length < 3 → roAppend pu d st path =
      Except.error "ValueError: illegal region or line path") ∧
    (path.length = 3 →
      roAppend pu d st path = roBlockStep pu d st path) ∧
    (3 < path.length → path.take 2 = ["regions", "TEXT"] →
      roAppend pu d st path = addRegionlessLine pu d st path) ∧
    (3 < path.length → path.take 2 ≠ ["regions", "TEXT"] →
      roAppend pu d st path =
        Except.error "assertion failed: line path outside regions TEXT") ∧
    (filterSkips bf path = false → path.length ≠ 3 → path.length ≠ 4 →
      exportPlainTextStep tab bf d c path =
        Except.error "RuntimeError: illegal path in reading order") ∧
    (filterSkips bf path = true →
      exportPlainTextStep tab bf d c path = Except.ok c) := by
  refine ⟨?_, ?_, ?_, ?_, ?_, ?_⟩
  · intro h
    unfold roAppend
    rw [if_neg (by omega), if_neg (by omega)]
  · intro h
    unfold roAppend
    rw [if_pos h]
  · intro h1 h2
    unfold roAppend
    rw [if_neg (by omega), if_pos h1, if_pos h2]
  · intro h1 h2
    unfold roAppend
    rw [if_neg (by omega), if_pos h1, if_neg h2]
  · intro hf h3 h4
    unfold exportPlainTextStep
    rw [if_neg (by simp [hf]), if_neg h3, if_neg h4]
  · intro hf
    unfold exportPlainTextStep
    rw [if_pos hf]

/-- Witness for the amended C7: a length-1 path raises the ValueError
in the reconstructor. -/
theorem path_length_dispatch_witness :
    roAppend (fun _ => ⟨true, []⟩) c7d ⟨[], [], fun _ => 0⟩ ["regions"] =
      Except.error "ValueError: illegal region or line path" :=
  (path_length_dispatch (fun _ => ⟨true, []⟩) (fun _ _ => "") none c7d
    ⟨[], [], fun _ => 0⟩ ⟨"\n", "\n\n", [], none⟩ ["regions"]).1 (by decide)
